import Mathlib

/-!
# OpFlow: logical (reflection) boundary conditions

Shallow embedding of `src/Core/BC/LogicalBC.hpp`: the structs `LogicalBCBase`, `SymmBC` and
`ASymmBC` with their member functions `reflectIndex`, `evalAt`, `getBCType`, `getTypeName` and
`assignImpl`; and of the timing reduction `gatherTime` of the benchmark
`benchmark/Core/EqnSolveMPI.cpp`.

Conventions of the embedding.

* An index `DS::MDIndex<d>` (a `std::array<int, d>`) is a function `Fin d → Int`.  The C++ `int`
  arithmetic of `reflectIndex` is taken exactly, over `Int`: signed overflow has no defined
  result in C++, so no wrap-around is modelled.
* The template parameter `F` (a structured field expression) is the record `Field d E`, with
  `E` standing for `StructuredFieldExprTrait<F>::elem_type`.
* The pointer `const F* _f` is an `Option (Field d E)`; `nullptr` is `none`.
* `int dim` stays an `Int`; subscripting an array with it is defined only inside `[0, d)`.
* A member function returns an `Outcome`: a value, a failed `OP_ASSERT_MSG`, or `undefined`
  where the source does something the language gives no meaning to (dereferencing a null
  `_f`, subscripting outside an array) without checking for it.
-/

namespace OpFlow

/-- Location of a field on the mesh in one dimension (`LocOnMesh`). -/
inductive LocOnMesh where
  | Corner
  | Center
  deriving DecidableEq, Repr

/-- Side of the boundary in one dimension (`DimPos`); `end_` is the source's `end`. -/
inductive DimPos where
  | start
  | end_
  deriving DecidableEq, Repr

/-- Modelled from the spec: the enumeration `BCType` is declared in `Core/BC/BCBase.hpp`, which
is not among the sources at hand; these are the kinds the spec and the sources name. -/
inductive BCType where
  | Dirc
  | Neum
  | Symm
  | ASymm
  deriving DecidableEq, Repr

/-- The loop `for (i = 0; i < d; ++i) ok &= p(i)` over the dimensions. -/
def allDims : (d : Nat) → (Fin d → Bool) → Bool
  | 0, _ => true
  | n + 1, p => p 0 && allDims n (fun i => p i.succ)

namespace DS

/-- An index of a `d`-dimensional structured mesh (`DS::MDIndex<d>`). -/
abbrev MDIndex (d : Nat) := Fin d → Int

/-- Component-wise equality of two indices (`operator==` of `MDIndex`). -/
def MDIndex.beq {d : Nat} (a b : MDIndex d) : Bool :=
  allDims d (fun i => decide (a i = b i))

/-- Modelled from the spec: `DS::Range<d>` is declared in `DataStructures/Range/Ranges.hpp`,
which is not among the sources at hand.  A range is an ordered pair of integer start/end
vectors, one entry per dimension, half-open; `end_` is the source's `end`. -/
structure Range (d : Nat) where
  start : Fin d → Int
  end_ : Fin d → Int

/-- Modelled from the spec: `DS::commonRange` (from `Ranges.hpp`) is the per-dimension
max(start)/min(end) intersection of two ranges; it may be empty. -/
def commonRange {d : Nat} (a b : Range d) : Range d where
  start := fun i => max (a.start i) (b.start i)
  end_ := fun i => min (a.end_ i) (b.end_ i)

/-- Modelled from the spec: `DS::inRange` (from `Ranges.hpp`) is the membership test of an
index in a half-open range: `start[i] <= t[i] < end[i]` in every dimension. -/
def inRange {d : Nat} (r : Range d) (t : MDIndex d) : Bool :=
  allDims d (fun i => decide (r.start i ≤ t i) && decide (t i < r.end_ i))

end DS

open DS

/-- The field collaborator `F`: what `LogicalBC.hpp` reads of the bound field. -/
structure Field (d : Nat) (E : Type) where
  loc : Fin d → LocOnMesh
  accessibleRange : Range d
  localRange : Range d
  evalAt : MDIndex d → E

/-- What a failed `OP_ASSERT_MSG` of `LogicalBC.hpp` reports: the arguments of its format
string. -/
inductive BCError (d : Nat) (E : Type) where
  /-- The first assertion of `evalAt`: the reflected index and the valid range it misses. -/
  | reflectedOutOfRange (reflected : MDIndex d) (range : Range d)
  /-- The second assertion of `ASymmBC::evalAt`: the nonzero value found on the boundary. -/
  | nonZeroOnBoundary (value : E)
  /-- The assertion of `assignImpl`: the type name of the BC that was to be assigned. -/
  | assignType (typeName : String)

/-- Result of a member function: a returned value, a failed assertion, or behaviour the
language leaves undefined (the source performs no check there). -/
inductive Outcome (ε α : Type) where
  | value (a : α)
  | fatal (e : ε)
  | undefined

/-- Sequencing of two steps: the second runs only when the first returned a value. -/
def Outcome.bind {ε α β : Type} (x : Outcome ε α) (k : α → Outcome ε β) : Outcome ε β :=
  match x with
  | Outcome.value a => k a
  | Outcome.fatal e => Outcome.fatal e
  | Outcome.undefined => Outcome.undefined

/-- Modelled from the spec: the macro `OP_ASSERT_MSG(cond, fmt, args...)` is defined outside
the sources at hand.  A violated condition is a fatal assertion that terminates the operation
with the formatted message; otherwise execution goes on with the rest of the function. -/
def OP_ASSERT_MSG {ε α : Type} (cond : Bool) (msg : ε) (rest : Outcome ε α) : Outcome ε α :=
  if cond then rest else Outcome.fatal msg

/-- Dereferencing `this->_f`: defined only for a non-null pointer. -/
def deref {ε α : Type} (p : Option α) : Outcome ε α :=
  match p with
  | some a => Outcome.value a
  | none => Outcome.undefined

/-- Subscripting an array of `d` entries with an `int`: defined only inside `[0, d)`. -/
def subscript (ε : Type) (d : Nat) (dim : Int) : Outcome ε (Fin d) :=
  if h : 0 ≤ dim ∧ dim.toNat < d then Outcome.value ⟨dim.toNat, h.2⟩ else Outcome.undefined

/-- The struct `SymmBC<F>` with the member `_f` of its base `LogicalBCBase<F>`. -/
structure SymmBC (d : Nat) (E : Type) where
  type : BCType := BCType.Symm
  _f : Option (Field d E) := none
  dim : Int := -1
  pos : DimPos := DimPos.start

/-- The struct `ASymmBC<F>` with the member `_f` of its base `LogicalBCBase<F>`. -/
structure ASymmBC (d : Nat) (E : Type) where
  type : BCType := BCType.Symm
  _f : Option (Field d E) := none
  dim : Int := -1
  pos : DimPos := DimPos.start

/-- The constructor `SymmBC(const F& f, int dim, DimPos pos)`. -/
def SymmBC.construct {d : Nat} {E : Type} (f : Field d E) (dim : Int) (pos : DimPos) :
    SymmBC d E :=
  { _f := some f, dim := dim, pos := pos }

/-- The constructor `ASymmBC(const F& f, int dim, DimPos pos)`. -/
def ASymmBC.construct {d : Nat} {E : Type} (f : Field d E) (dim : Int) (pos : DimPos) :
    ASymmBC d E :=
  { _f := some f, dim := dim, pos := pos }

/-- `LogicalBCBase::rebindField` on a `SymmBC`. -/
def SymmBC.rebindField {d : Nat} {E : Type} (bc : SymmBC d E) (f : Field d E) :
    SymmBC d E :=
  { bc with _f := some f }

/-- `LogicalBCBase::rebindField` on an `ASymmBC`. -/
def ASymmBC.rebindField {d : Nat} {E : Type} (bc : ASymmBC d E) (f : Field d E) :
    ASymmBC d E :=
  { bc with _f := some f }

/-- `SymmBC::reflectIndex` (LogicalBC.hpp, lines 62-75). -/
def SymmBC.reflectIndex {d : Nat} {E : Type} (bc : SymmBC d E) (index : MDIndex d) :
    Outcome (BCError d E) (MDIndex d) :=
  let ret := index
  let start := decide (bc.pos = DimPos.start)
  (deref bc._f).bind fun f =>
  (subscript (BCError d E) d bc.dim).bind fun k =>
  let corner := decide (f.loc k = LocOnMesh.Corner)
  if start then
    Outcome.value (Function.update ret k (2 * f.accessibleRange.start k - index k))
  else if corner then
    Outcome.value (Function.update ret k (2 * (f.accessibleRange.end_ k - 1) - index k))
  else
    Outcome.value (Function.update ret k (2 * (f.accessibleRange.end_ k) - 1 - index k))

/-- `SymmBC::evalAt` (LogicalBC.hpp, lines 39-48). -/
def SymmBC.evalAt {d : Nat} {E : Type} (bc : SymmBC d E) (index : MDIndex d) :
    Outcome (BCError d E) E :=
  (bc.reflectIndex index).bind fun reflected =>
  (deref bc._f).bind fun f =>
  OP_ASSERT_MSG (inRange (commonRange f.accessibleRange f.localRange) reflected)
    (BCError.reflectedOutOfRange reflected (commonRange f.accessibleRange f.localRange))
    (let ret := f.evalAt reflected
     Outcome.value ret)

/-- `ASymmBC::reflectIndex` (LogicalBC.hpp, lines 123-136). -/
def ASymmBC.reflectIndex {d : Nat} {E : Type} (bc : ASymmBC d E) (index : MDIndex d) :
    Outcome (BCError d E) (MDIndex d) :=
  let ret := index
  let start := decide (bc.pos = DimPos.start)
  (deref bc._f).bind fun f =>
  (subscript (BCError d E) d bc.dim).bind fun k =>
  let corner := decide (f.loc k = LocOnMesh.Corner)
  if start then
    Outcome.value (Function.update ret k (2 * f.accessibleRange.start k - index k))
  else if !start && corner then
    Outcome.value (Function.update ret k (2 * (f.accessibleRange.end_ k - 1) - index k))
  else
    Outcome.value (Function.update ret k (2 * (f.accessibleRange.end_ k) - 1 - index k))

/-- `ASymmBC::evalAt` (LogicalBC.hpp, lines 98-109). -/
def ASymmBC.evalAt {d : Nat} {E : Type} [Neg E] [Zero E] [DecidableEq E]
    (bc : ASymmBC d E) (index : MDIndex d) : Outcome (BCError d E) E :=
  (bc.reflectIndex index).bind fun reflected =>
  (deref bc._f).bind fun f =>
  OP_ASSERT_MSG (inRange (commonRange f.accessibleRange f.localRange) reflected)
    (BCError.reflectedOutOfRange reflected (commonRange f.accessibleRange f.localRange))
    (OP_ASSERT_MSG (!(MDIndex.beq reflected index) || decide (f.evalAt index = 0))
      (BCError.nonZeroOnBoundary (f.evalAt index))
      (Outcome.value (-f.evalAt reflected)))

/-! ## Kind identification and kind-checked assignment -/

/-- `SymmBC::getBCType` (LogicalBC.hpp, line 50). -/
def SymmBC.getBCType {d : Nat} {E : Type} (_bc : SymmBC d E) : BCType := BCType.Symm

/-- `SymmBC::getTypeName` (LogicalBC.hpp, line 51). -/
def SymmBC.getTypeName {d : Nat} {E : Type} (_bc : SymmBC d E) : String := "SymmetricBC"

/-- `ASymmBC::getBCType` (LogicalBC.hpp, line 111); the member `type` is not consulted. -/
def ASymmBC.getBCType {d : Nat} {E : Type} (_bc : ASymmBC d E) : BCType := BCType.ASymm

/-- `ASymmBC::getTypeName` (LogicalBC.hpp, line 112). -/
def ASymmBC.getTypeName {d : Nat} {E : Type} (_bc : ASymmBC d E) : String := "ASymmetricBC"

/-- Modelled from the spec: the polymorphic base `BCBase<F>` is declared in
`Core/BC/BCBase.hpp`, which is not among the sources at hand.  An object behind a
`const BCBase<F>&` is a BC of one of the two classes of `LogicalBC.hpp`, or a BC of a class
defined elsewhere (Dirichlet, Neumann, ...), of which only the reported kind and type name are
seen here. -/
inductive BCBase (d : Nat) (E : Type) where
  | symm (bc : SymmBC d E)
  | asymm (bc : ASymmBC d E)
  | other (type : BCType) (typeName : String)

/-- Virtual dispatch of `getBCType` through a `BCBase<F>` reference. -/
def BCBase.getBCType {d : Nat} {E : Type} : BCBase d E → BCType
  | BCBase.symm bc => bc.getBCType
  | BCBase.asymm bc => bc.getBCType
  | BCBase.other type _ => type

/-- Virtual dispatch of `getTypeName` through a `BCBase<F>` reference. -/
def BCBase.getTypeName {d : Nat} {E : Type} : BCBase d E → String
  | BCBase.symm bc => bc.getTypeName
  | BCBase.asymm bc => bc.getTypeName
  | BCBase.other _ typeName => typeName

/-- `SymmBC::assignImpl` (LogicalBC.hpp, lines 76-83).  The `reinterpret_cast` to
`const SymmBC<F>&` has a meaning only when the object is a `SymmBC`. -/
def SymmBC.assignImpl {d : Nat} {E : Type} (self : SymmBC d E) (other : BCBase d E) :
    Outcome (BCError d E) (SymmBC d E) :=
  OP_ASSERT_MSG (decide (other.getBCType = BCType.Symm))
    (BCError.assignType other.getTypeName)
    (match other with
     | BCBase.symm _other =>
       Outcome.value { self with _f := _other._f, dim := _other.dim, pos := _other.pos }
     | _ => Outcome.undefined)

/-- `ASymmBC::assignImpl` (LogicalBC.hpp, lines 138-145).  The `reinterpret_cast` to
`const ASymmBC<F>&` has a meaning only when the object is an `ASymmBC`. -/
def ASymmBC.assignImpl {d : Nat} {E : Type} (self : ASymmBC d E) (other : BCBase d E) :
    Outcome (BCError d E) (ASymmBC d E) :=
  OP_ASSERT_MSG (decide (other.getBCType = BCType.ASymm))
    (BCError.assignType other.getTypeName)
    (match other with
     | BCBase.asymm _other =>
       Outcome.value { self with _f := _other._f, dim := _other.dim, pos := _other.pos }
     | _ => Outcome.undefined)

/-! ## The benchmark fixture `AMGCLEqnSolveBench` (`benchmark/Core/EqnSolveMPI.cpp`) -/

/-- The call `MPI_Allreduce(&send, &recv, 1, MPI_DOUBLE, MPI_MAX, MPI_COMM_WORLD)` of the MPI
library, for a communicator of `n + 1` ranks: the reduction of all ranks' send values with
`MPI_MAX`, folded over the ranks. -/
def MPI_MAX_reduce {T : Type} [Max T] : (n : Nat) → (Fin (n + 1) → T) → T
  | 0, send => send 0
  | n + 1, send => max (send 0) (MPI_MAX_reduce n (fun i => send i.succ))

/-- The collective `MPI_Allreduce` with `MPI_MAX`: every rank receives the reduced value. -/
def MPI_Allreduce_MAX {T : Type} [Max T] (n : Nat) (send : Fin (n + 1) → T) :
    Fin (n + 1) → T :=
  fun _ => MPI_MAX_reduce n send

/-- `AMGCLEqnSolveBench::gatherTime` (EqnSolveMPI.cpp, lines 47-53), run by all `n + 1` worker
processes together: worker `w` passes its own clock readings `start w` and `end_ w` (in
seconds, in an ordered type standing for `double`) and receives `t`. -/
def gatherTime {T : Type} [Sub T] [Max T] (n : Nat) (start end_ : Fin (n + 1) → T) :
    Fin (n + 1) → T :=
  let duration := fun w => end_ w - start w
  let elapsed_seconds := duration
  let t := MPI_Allreduce_MAX n elapsed_seconds
  t

/-- Modelled from the spec: the equation solve handler behind `handler->generateAb()` is not
among the sources at hand; only its caller, the benchmark, is.  The handler owns the static
flag, the rows of the local writable range with the row mapper, the discretized operator (the
linear coefficients and the right-hand-side value of a row, evaluated on the current field),
and the assembled matrix and vector. -/
structure EqnSolveHandler (Fld Row Coef : Type) where
  staticMat : Bool
  rows : List Row
  mapper : Row → Nat
  coefficients : Fld → Row → List (Nat × Coef)
  rhs : Fld → Row → Coef
  A : Option (List (Nat × List (Nat × Coef))) := none
  b : Option (List (Nat × Coef)) := none

/-- Modelled from the spec: `generateAb` is not among the sources at hand.  For every row of
the local writable range it evaluates the operator's linear coefficients and the
right-hand-side value on the current field `u` and populates matrix and vector keyed by the row
mapper, discarding the previous ones; with the static flag set, a call after the first leaves
the matrix as it is and still refreshes the vector. -/
def EqnSolveHandler.generateAb {Fld Row Coef : Type} (h : EqnSolveHandler Fld Row Coef)
    (u : Fld) : EqnSolveHandler Fld Row Coef :=
  let b := h.rows.map (fun r => (h.mapper r, h.rhs u r))
  match h.staticMat, h.A with
  | true, some _ => { h with b := some b }
  | _, _ => { h with A := some (h.rows.map (fun r => (h.mapper r, h.coefficients u r))),
                     b := some b }

/-! ## Concrete fields, used to instantiate the theorems below -/

/-- A cell-centred field on a one-dimensional mesh of four cells: accessible and local range
`[0, 4)`, value `i + 1` at cell `i`. -/
def centerField : Field 1 Int where
  loc := fun _ => LocOnMesh.Center
  accessibleRange := { start := fun _ => 0, end_ := fun _ => 4 }
  localRange := { start := fun _ => 0, end_ := fun _ => 4 }
  evalAt := fun i => i 0 + 1

/-- A node-centred field on a one-dimensional mesh of five nodes: accessible and local range
`[0, 5)`, value `i` at node `i`, so that it vanishes on the `start` plane and not on the `end`
plane. -/
def cornerField : Field 1 Int where
  loc := fun _ => LocOnMesh.Corner
  accessibleRange := { start := fun _ => 0, end_ := fun _ => 5 }
  localRange := { start := fun _ => 0, end_ := fun _ => 5 }
  evalAt := fun i => i 0

/-- A field on a two-dimensional mesh, `Center` in dimension 0 and `Corner` in dimension 1,
with accessible range `[0, 4) x [0, 5)`, of which this partition owns `[0, 4) x [0, 3)`; its
value at `(i, j)` is `10 * i + j`. -/
def planeField : Field 2 Int where
  loc := fun i => if i = 0 then LocOnMesh.Center else LocOnMesh.Corner
  accessibleRange := { start := fun _ => 0, end_ := fun i => if i = 0 then 4 else 5 }
  localRange := { start := fun _ => 0, end_ := fun i => if i = 0 then 4 else 3 }
  evalAt := fun i => 10 * i 0 + i 1

/-- The field `centerField` with other values outside its valid range `[0, 4)`. -/
def centerFieldAlt : Field 1 Int where
  loc := fun _ => LocOnMesh.Center
  accessibleRange := { start := fun _ => 0, end_ := fun _ => 4 }
  localRange := { start := fun _ => 0, end_ := fun _ => 4 }
  evalAt := fun i => if 0 ≤ i 0 ∧ i 0 < 4 then i 0 + 1 else 99

/-- A handler on two rows `0` and `1` over a field that is a single number `u`: row `r` has
the coefficient `2 * u` on its diagonal and the right-hand side `u + r`. -/
def twoRowHandler (staticMat : Bool) : EqnSolveHandler Int Nat Int where
  staticMat := staticMat
  rows := [0, 1]
  mapper := fun r => r
  coefficients := fun u r => [(r, 2 * u)]
  rhs := fun u r => u + r

/-! ## Auxiliary facts about the embedding -/

theorem allDims_eq_true : ∀ (d : Nat) (p : Fin d → Bool),
    allDims d p = true ↔ ∀ i, p i = true
  | 0, p => by
    simp only [allDims, true_iff]
    intro i
    exact i.elim0
  | n + 1, p => by
    simp only [allDims, Bool.and_eq_true, allDims_eq_true n]
    constructor
    · rintro ⟨h0, hs⟩ i
      refine Fin.cases h0 hs i
    · intro h
      exact ⟨h 0, fun i => h i.succ⟩

theorem mdIndex_beq_eq_true {d : Nat} (a b : MDIndex d) :
    MDIndex.beq a b = true ↔ a = b := by
  simp only [MDIndex.beq, allDims_eq_true, decide_eq_true_eq]
  exact ⟨fun h => funext h, fun h i => congrFun h i⟩

theorem inRange_eq_true {d : Nat} (r : Range d) (t : MDIndex d) :
    inRange r t = true ↔ ∀ i, r.start i ≤ t i ∧ t i < r.end_ i := by
  simp only [inRange, allDims_eq_true, Bool.and_eq_true, decide_eq_true_eq]

theorem inRange_commonRange_eq_false {d : Nat} (a b : Range d) (t : MDIndex d) :
    inRange (commonRange a b) t = false ↔
      ¬ ∀ i, max (a.start i) (b.start i) ≤ t i ∧ t i < min (a.end_ i) (b.end_ i) := by
  rw [← Bool.not_eq_true, inRange_eq_true (commonRange a b) t]
  rfl

theorem subscript_coe (ε : Type) {d : Nat} (k : Fin d) :
    subscript ε d ((k : Nat) : Int) = Outcome.value k := by
  have h : 0 ≤ ((k : Nat) : Int) ∧ ((k : Nat) : Int).toNat < d :=
    ⟨Int.ofNat_nonneg _, by simp⟩
  simp only [subscript, dif_pos h]
  congr 1

theorem symm_reflectIndex_bound {d : Nat} {E : Type} (bc : SymmBC d E) (f : Field d E)
    (k : Fin d) (index : MDIndex d) (hf : bc._f = some f) (hdim : bc.dim = ((k : Nat) : Int)) :
    bc.reflectIndex index
      = Outcome.value (Function.update index k
          (if bc.pos = DimPos.start then 2 * f.accessibleRange.start k - index k
           else if f.loc k = LocOnMesh.Corner then 2 * (f.accessibleRange.end_ k - 1) - index k
           else 2 * f.accessibleRange.end_ k - 1 - index k)) := by
  simp only [SymmBC.reflectIndex, hf, hdim, deref, Outcome.bind, subscript_coe]
  cases bc.pos <;> cases f.loc k <;> simp

theorem asymm_reflectIndex_bound {d : Nat} {E : Type} (bc : ASymmBC d E) (f : Field d E)
    (k : Fin d) (index : MDIndex d) (hf : bc._f = some f) (hdim : bc.dim = ((k : Nat) : Int)) :
    bc.reflectIndex index
      = Outcome.value (Function.update index k
          (if bc.pos = DimPos.start then 2 * f.accessibleRange.start k - index k
           else if f.loc k = LocOnMesh.Corner then 2 * (f.accessibleRange.end_ k - 1) - index k
           else 2 * f.accessibleRange.end_ k - 1 - index k)) := by
  simp only [ASymmBC.reflectIndex, hf, hdim, deref, Outcome.bind, subscript_coe]
  cases bc.pos <;> cases f.loc k <;> simp

theorem symm_reflectIndex_construct {d : Nat} {E : Type} (f : Field d E) (k : Fin d)
    (pos : DimPos) (index : MDIndex d) :
    (SymmBC.construct f ((k : Nat) : Int) pos).reflectIndex index
      = Outcome.value (Function.update index k
          (if pos = DimPos.start then 2 * f.accessibleRange.start k - index k
           else if f.loc k = LocOnMesh.Corner then 2 * (f.accessibleRange.end_ k - 1) - index k
           else 2 * f.accessibleRange.end_ k - 1 - index k)) :=
  symm_reflectIndex_bound _ f k index rfl rfl

theorem asymm_reflectIndex_construct {d : Nat} {E : Type} (f : Field d E) (k : Fin d)
    (pos : DimPos) (index : MDIndex d) :
    (ASymmBC.construct f ((k : Nat) : Int) pos).reflectIndex index
      = Outcome.value (Function.update index k
          (if pos = DimPos.start then 2 * f.accessibleRange.start k - index k
           else if f.loc k = LocOnMesh.Corner then 2 * (f.accessibleRange.end_ k - 1) - index k
           else 2 * f.accessibleRange.end_ k - 1 - index k)) :=
  asymm_reflectIndex_bound _ f k index rfl rfl

theorem symm_evalAt_bound {d : Nat} {E : Type} (bc : SymmBC d E) (f : Field d E)
    (index r : MDIndex d) (hf : bc._f = some f) (hr : bc.reflectIndex index = Outcome.value r) :
    bc.evalAt index
      = OP_ASSERT_MSG (inRange (commonRange f.accessibleRange f.localRange) r)
          (BCError.reflectedOutOfRange r (commonRange f.accessibleRange f.localRange))
          (Outcome.value (f.evalAt r)) := by
  simp only [SymmBC.evalAt, hr, hf, deref, Outcome.bind]

theorem asymm_evalAt_bound {d : Nat} {E : Type} [Neg E] [Zero E] [DecidableEq E]
    (bc : ASymmBC d E) (f : Field d E) (index r : MDIndex d) (hf : bc._f = some f)
    (hr : bc.reflectIndex index = Outcome.value r) :
    bc.evalAt index
      = OP_ASSERT_MSG (inRange (commonRange f.accessibleRange f.localRange) r)
          (BCError.reflectedOutOfRange r (commonRange f.accessibleRange f.localRange))
          (OP_ASSERT_MSG (!(MDIndex.beq r index) || decide (f.evalAt index = 0))
            (BCError.nonZeroOnBoundary (f.evalAt index))
            (Outcome.value (-f.evalAt r))) := by
  simp only [ASymmBC.evalAt, hr, hf, deref, Outcome.bind]

theorem asymm_bound_of_reflectIndex {d : Nat} {E : Type} (bc : ASymmBC d E)
    (index r : MDIndex d) (hr : bc.reflectIndex index = Outcome.value r) :
    ∃ f, bc._f = some f := by
  cases hf : bc._f with
  | none => simp [ASymmBC.reflectIndex, hf, deref, Outcome.bind] at hr
  | some f => exact ⟨f, rfl⟩

/-! ## The reflection rule -/

/-- C1: for every bound field, every boundary dimension `k` and every index, a `SymmBC` and an
`ASymmBC` constructed on the `start` side return a reflected index whose component `k` is
`2 * accessibleRange.start[k] - index[k]`, whatever the location of the field at `k` is. -/
theorem reflectIndex_start_side {d : Nat} {E : Type} (f : Field d E) (k : Fin d)
    (index : MDIndex d) :
    ∃ r : MDIndex d,
      (SymmBC.construct f ((k : Nat) : Int) DimPos.start).reflectIndex index = Outcome.value r ∧
      (ASymmBC.construct f ((k : Nat) : Int) DimPos.start).reflectIndex index = Outcome.value r ∧
      r k = 2 * f.accessibleRange.start k - index k := by
  refine ⟨_, symm_reflectIndex_construct f k _ index,
    asymm_reflectIndex_construct f k _ index, ?_⟩
  simp

/-- C2: for a field whose location at the boundary dimension `k` is `Corner`, a `SymmBC` and an
`ASymmBC` constructed on the `end` side return a reflected index whose component `k` is
`2 * (accessibleRange.end[k] - 1) - index[k]`; in particular, when the accessible range at `k`
is `[0, N)`, the index `N` reflects to `N - 2`. -/
theorem reflectIndex_end_side_corner {d : Nat} {E : Type} (f : Field d E) (k : Fin d)
    (index : MDIndex d) (hloc : f.loc k = LocOnMesh.Corner) :
    ∃ r : MDIndex d,
      (SymmBC.construct f ((k : Nat) : Int) DimPos.end_).reflectIndex index = Outcome.value r ∧
      (ASymmBC.construct f ((k : Nat) : Int) DimPos.end_).reflectIndex index = Outcome.value r ∧
      r k = 2 * (f.accessibleRange.end_ k - 1) - index k ∧
      ∀ N : Int, f.accessibleRange.start k = 0 → f.accessibleRange.end_ k = N →
        index k = N → r k = N - 2 := by
  refine ⟨_, symm_reflectIndex_construct f k _ index,
    asymm_reflectIndex_construct f k _ index, ?_, ?_⟩
  · simp [hloc]
  · intro N _ hend hidx
    simp [hloc, hend, hidx]
    ring

/-- C3: for a field whose location at the boundary dimension `k` is `Center`, a `SymmBC` and an
`ASymmBC` constructed on the `end` side return a reflected index whose component `k` is
`2 * accessibleRange.end[k] - 1 - index[k]`; in particular, when the accessible range at `k` is
`[0, N)` with `N ≥ 1`, the index `N` reflects to `N - 1`, which lies within `[0, N)`. -/
theorem reflectIndex_end_side_center {d : Nat} {E : Type} (f : Field d E) (k : Fin d)
    (index : MDIndex d) (hloc : f.loc k = LocOnMesh.Center) :
    ∃ r : MDIndex d,
      (SymmBC.construct f ((k : Nat) : Int) DimPos.end_).reflectIndex index = Outcome.value r ∧
      (ASymmBC.construct f ((k : Nat) : Int) DimPos.end_).reflectIndex index = Outcome.value r ∧
      r k = 2 * f.accessibleRange.end_ k - 1 - index k ∧
      ∀ N : Int, 1 ≤ N → f.accessibleRange.start k = 0 → f.accessibleRange.end_ k = N →
        index k = N →
        r k = N - 1 ∧ f.accessibleRange.start k ≤ r k ∧ r k < f.accessibleRange.end_ k := by
  refine ⟨_, symm_reflectIndex_construct f k _ index,
    asymm_reflectIndex_construct f k _ index, ?_, ?_⟩
  · simp [hloc]
  · intro N hN hstart hend hidx
    simp only [Function.update_same, hloc, hstart, hend, hidx]
    simp
    constructor <;> omega

/-- C10: for every index, every side and every dimension `j` other than the boundary dimension
`k`, the reflected index of a `SymmBC` and of an `ASymmBC` has component `j` equal to
`index[j]`: only component `k` can change. -/
theorem reflectIndex_other_dims {d : Nat} {E : Type} (f : Field d E) (k : Fin d)
    (pos : DimPos) (index : MDIndex d) (j : Fin d) (hj : j ≠ k) :
    ∃ r : MDIndex d,
      (SymmBC.construct f ((k : Nat) : Int) pos).reflectIndex index = Outcome.value r ∧
      (ASymmBC.construct f ((k : Nat) : Int) pos).reflectIndex index = Outcome.value r ∧
      r j = index j := by
  refine ⟨_, symm_reflectIndex_construct f k _ index,
    asymm_reflectIndex_construct f k _ index, ?_⟩
  exact Function.update_noteq hj _ _

/-- C4 (the code at the claim's input): for the cell-centred field with accessible range
`[0, 4)`, a `SymmBC` and an `ASymmBC` constructed on the `start` side reflect the index `-1`
to `1`, the result of `2 * start - index`, and not to `0`. -/
theorem reflectIndex_start_side_center_minus_one :
    ∃ r : MDIndex 1,
      (SymmBC.construct centerField 0 DimPos.start).reflectIndex (fun _ => -1)
        = Outcome.value r ∧
      (ASymmBC.construct centerField 0 DimPos.start).reflectIndex (fun _ => -1)
        = Outcome.value r ∧
      centerField.loc 0 = LocOnMesh.Center ∧ r 0 = 1 ∧ r 0 ≠ 0 :=
  ⟨Function.update (fun _ => -1) 0 1, rfl, rfl, rfl, by decide, by decide⟩

/-! ## Evaluation of the ghost value -/

/-- C5: for every `SymmBC` bound to a field `f` and every index `j` (in particular one outside
the valid range) whose reflected index `i` lies inside
`commonRange(f.accessibleRange, f.localRange)`, `evalAt(j)` returns exactly `f.evalAt(i)`. -/
theorem SymmBC_evalAt_reflected_in_range {d : Nat} {E : Type} (bc : SymmBC d E)
    (f : Field d E) (j i : MDIndex d) (hf : bc._f = some f)
    (hi : bc.reflectIndex j = Outcome.value i)
    (hin : inRange (commonRange f.accessibleRange f.localRange) i = true) :
    bc.evalAt j = Outcome.value (f.evalAt i) := by
  rw [symm_evalAt_bound bc f j i hf hi, OP_ASSERT_MSG, if_pos hin]

/-- C6: for every `ASymmBC` bound to a field `f` (whatever its values) and every index `j`
outside `commonRange(f.accessibleRange, f.localRange)` whose reflected index `i` lies inside
it, `i` differs from `j`, so the boundary-zero assertion does not fire, and `evalAt(j)`
returns exactly `-f.evalAt(i)`. -/
theorem ASymmBC_evalAt_reflected_in_range {d : Nat} {E : Type} [Neg E] [Zero E]
    [DecidableEq E] (bc : ASymmBC d E) (f : Field d E) (j i : MDIndex d)
    (hf : bc._f = some f) (hi : bc.reflectIndex j = Outcome.value i)
    (hout : inRange (commonRange f.accessibleRange f.localRange) j = false)
    (hin : inRange (commonRange f.accessibleRange f.localRange) i = true) :
    i ≠ j ∧ bc.evalAt j = Outcome.value (-f.evalAt i) := by
  have hne : i ≠ j := by
    intro h
    rw [h, hout] at hin
    exact Bool.false_ne_true hin
  have hbeq : MDIndex.beq i j = false := by
    rw [Bool.eq_false_iff]
    intro h
    exact hne ((mdIndex_beq_eq_true i j).1 h)
  refine ⟨hne, ?_⟩
  rw [asymm_evalAt_bound bc f j i hf hi, OP_ASSERT_MSG, if_pos hin, OP_ASSERT_MSG, hbeq]
  simp

/-- C7: for a `SymmBC` and an `ASymmBC` bound to a field `f` and every index: when the
reflected index is not inside `commonRange(f.accessibleRange, f.localRange)`, that is, when in
some dimension it is below the larger of the two starts or not below the smaller of the two
ends, `evalAt` fails with the assertion that reports the reflected index and that range, and
returns no value. -/
theorem evalAt_reflected_out_of_range {d : Nat} {E : Type} [Neg E] [Zero E] [DecidableEq E]
    (s : SymmBC d E) (a : ASymmBC d E) (f : Field d E) (index rs ra : MDIndex d)
    (hsf : s._f = some f) (haf : a._f = some f)
    (hs : s.reflectIndex index = Outcome.value rs)
    (ha : a.reflectIndex index = Outcome.value ra)
    (hsout : ¬ ∀ i, max (f.accessibleRange.start i) (f.localRange.start i) ≤ rs i ∧
      rs i < min (f.accessibleRange.end_ i) (f.localRange.end_ i))
    (haout : ¬ ∀ i, max (f.accessibleRange.start i) (f.localRange.start i) ≤ ra i ∧
      ra i < min (f.accessibleRange.end_ i) (f.localRange.end_ i)) :
    s.evalAt index
        = Outcome.fatal
            (BCError.reflectedOutOfRange rs (commonRange f.accessibleRange f.localRange)) ∧
      a.evalAt index
        = Outcome.fatal
            (BCError.reflectedOutOfRange ra (commonRange f.accessibleRange f.localRange)) ∧
      (∀ v, s.evalAt index ≠ Outcome.value v) ∧ (∀ v, a.evalAt index ≠ Outcome.value v) := by
  have hsout' := (inRange_commonRange_eq_false f.accessibleRange f.localRange rs).2 hsout
  have haout' := (inRange_commonRange_eq_false f.accessibleRange f.localRange ra).2 haout
  have h1 := symm_evalAt_bound s f index rs hsf hs
  have h2 := asymm_evalAt_bound a f index ra haf ha
  simp only [OP_ASSERT_MSG, hsout', Bool.false_eq_true, if_false] at h1
  simp only [OP_ASSERT_MSG, haout', Bool.false_eq_true, if_false] at h2
  refine ⟨h1, h2, ?_, ?_⟩
  · intro v hv
    rw [h1] at hv
    cases hv
  · intro v hv
    rw [h2] at hv
    cases hv

/-- C8: for every `ASymmBC` bound to a field `f` and every index that is its own reflection:
if `f.evalAt(index)` is nonzero, `evalAt(index)` fails with a fatal assertion, the
boundary-zero one when the index is inside `commonRange(f.accessibleRange, f.localRange)` and
the out-of-range one otherwise. -/
theorem ASymmBC_evalAt_nonzero_on_boundary {d : Nat} {E : Type} [Neg E] [Zero E]
    [DecidableEq E] (bc : ASymmBC d E) (f : Field d E) (index : MDIndex d)
    (hf : bc._f = some f) (hself : bc.reflectIndex index = Outcome.value index)
    (hnz : f.evalAt index ≠ 0) :
    bc.evalAt index
      = Outcome.fatal
          (if inRange (commonRange f.accessibleRange f.localRange) index = true
           then BCError.nonZeroOnBoundary (f.evalAt index)
           else BCError.reflectedOutOfRange index
             (commonRange f.accessibleRange f.localRange)) := by
  have hbeq : MDIndex.beq index index = true := (mdIndex_beq_eq_true index index).2 rfl
  rw [asymm_evalAt_bound bc f index index hf hself]
  by_cases hin : inRange (commonRange f.accessibleRange f.localRange) index = true
  · simp [OP_ASSERT_MSG, hin, hbeq, hnz]
  · simp [OP_ASSERT_MSG, hin]

/-- C9: for every `ASymmBC` and every index that is its own reflection: whenever
`evalAt(index)` returns a value, that value is zero. -/
theorem ASymmBC_evalAt_on_boundary_zero {d : Nat} {E : Type} [NegZeroClass E]
    [DecidableEq E] (bc : ASymmBC d E) (index : MDIndex d) (v : E)
    (hself : bc.reflectIndex index = Outcome.value index)
    (hv : bc.evalAt index = Outcome.value v) :
    v = 0 := by
  obtain ⟨f, hf⟩ := asymm_bound_of_reflectIndex bc index index hself
  have hbeq : MDIndex.beq index index = true := (mdIndex_beq_eq_true index index).2 rfl
  rw [asymm_evalAt_bound bc f index index hf hself] at hv
  simp only [OP_ASSERT_MSG, hbeq, Bool.not_true, Bool.false_or, decide_eq_true_eq] at hv
  by_cases hin : inRange (commonRange f.accessibleRange f.localRange) index = true
  · rw [if_pos hin] at hv
    by_cases hz : f.evalAt index = 0
    · rw [if_pos hz, hz, neg_zero] at hv
      cases hv
      rfl
    · rw [if_neg hz] at hv
      cases hv
  · rw [if_neg hin] at hv
    cases hv

/-! ## Instances of the theorems at concrete fields -/

/-- Instance of C2: the field `planeField` is `Corner` in dimension 1 with accessible range
`[0, 5)` there, and the index `(2, 5)` is reflected at the `end` side to component `5 - 2`. -/
theorem reflectIndex_end_side_corner_witness :
    planeField.loc 1 = LocOnMesh.Corner ∧
    ∃ r : MDIndex 2,
      (SymmBC.construct planeField (((1 : Fin 2) : Nat) : Int) DimPos.end_).reflectIndex
        (fun i => if i = 0 then 2 else 5) = Outcome.value r ∧
      (ASymmBC.construct planeField (((1 : Fin 2) : Nat) : Int) DimPos.end_).reflectIndex
        (fun i => if i = 0 then 2 else 5) = Outcome.value r ∧
      r 1 = 5 - 2 := by
  obtain ⟨r, hs, ha, _, hN⟩ :=
    reflectIndex_end_side_corner planeField 1 (fun i => if i = 0 then 2 else 5) (by decide)
  exact ⟨by decide, r, hs, ha, hN 5 rfl rfl rfl⟩

/-- Instance of C3: the field `centerField` is `Center` with accessible range `[0, 4)`, and
the index `4` is reflected at the `end` side to `4 - 1`, inside `[0, 4)`. -/
theorem reflectIndex_end_side_center_witness :
    centerField.loc 0 = LocOnMesh.Center ∧
    ∃ r : MDIndex 1,
      (SymmBC.construct centerField (((0 : Fin 1) : Nat) : Int) DimPos.end_).reflectIndex
        (fun _ => 4) = Outcome.value r ∧
      (ASymmBC.construct centerField (((0 : Fin 1) : Nat) : Int) DimPos.end_).reflectIndex
        (fun _ => 4) = Outcome.value r ∧
      r 0 = 4 - 1 ∧ centerField.accessibleRange.start 0 ≤ r 0 ∧
      r 0 < centerField.accessibleRange.end_ 0 := by
  obtain ⟨r, hs, ha, _, hN⟩ :=
    reflectIndex_end_side_center centerField 0 (fun _ => 4) rfl
  exact ⟨rfl, r, hs, ha, hN 4 (by decide) rfl rfl rfl⟩

/-- Instance of C10: reflecting the index `(4, 7)` of `planeField` at the `end` side of
dimension 0 leaves component 1 equal to `7`. -/
theorem reflectIndex_other_dims_witness :
    (1 : Fin 2) ≠ 0 ∧
    ∃ r : MDIndex 2,
      (SymmBC.construct planeField (((0 : Fin 2) : Nat) : Int) DimPos.end_).reflectIndex
        (fun i => if i = 0 then 4 else 7) = Outcome.value r ∧
      (ASymmBC.construct planeField (((0 : Fin 2) : Nat) : Int) DimPos.end_).reflectIndex
        (fun i => if i = 0 then 4 else 7) = Outcome.value r ∧
      r 1 = (fun i : Fin 2 => if i = 0 then (4 : Int) else 7) 1 :=
  ⟨by decide,
    reflectIndex_other_dims planeField 0 DimPos.end_ (fun i => if i = 0 then 4 else 7) 1
      (by decide)⟩

/-- Instance of C5: on `centerField` the ghost index `4` of an `end`-side `SymmBC` reflects to
`3`, inside the valid range, and the ghost value is the field value there. -/
theorem SymmBC_evalAt_reflected_in_range_witness :
    inRange (commonRange centerField.accessibleRange centerField.localRange)
        (Function.update (fun _ => 4) 0 3) = true ∧
      (SymmBC.construct centerField 0 DimPos.end_).evalAt (fun _ => 4)
        = Outcome.value (centerField.evalAt (Function.update (fun _ => 4) 0 3)) :=
  ⟨by decide,
    SymmBC_evalAt_reflected_in_range (SymmBC.construct centerField 0 DimPos.end_) centerField
      (fun _ => 4) (Function.update (fun _ => 4) 0 3) rfl rfl (by decide)⟩

/-- Instance of C6: on `centerField` the ghost index `4` of an `end`-side `ASymmBC` lies
outside the valid range, reflects to `3` inside it, and the ghost value is the negated field
value there. -/
theorem ASymmBC_evalAt_reflected_in_range_witness :
    inRange (commonRange centerField.accessibleRange centerField.localRange)
        (fun _ => 4) = false ∧
      inRange (commonRange centerField.accessibleRange centerField.localRange)
        (Function.update (fun _ => 4) 0 3) = true ∧
      Function.update (fun _ => 4) 0 3 ≠ (fun _ : Fin 1 => (4 : Int)) ∧
      (ASymmBC.construct centerField 0 DimPos.end_).evalAt (fun _ => 4)
        = Outcome.value (-centerField.evalAt (Function.update (fun _ => 4) 0 3)) :=
  ⟨by decide, by decide,
    ASymmBC_evalAt_reflected_in_range (ASymmBC.construct centerField 0 DimPos.end_)
      centerField (fun _ => 4) (Function.update (fun _ => 4) 0 3) rfl rfl (by decide)
      (by decide)⟩

/-- Instance of C7: on `planeField`, whose partition owns `[0, 3)` in dimension 1, the index
`(2, 5)` reflects at the `end` side of dimension 1 to `(2, 3)`, outside the valid range, and
both kinds of BC fail. -/
theorem evalAt_reflected_out_of_range_witness :
    (¬ ∀ i, max (planeField.accessibleRange.start i) (planeField.localRange.start i)
          ≤ Function.update (fun i => if i = 0 then 2 else 5) 1 3 i ∧
        Function.update (fun i => if i = 0 then 2 else 5) 1 3 i
          < min (planeField.accessibleRange.end_ i) (planeField.localRange.end_ i)) ∧
      (SymmBC.construct planeField 1 DimPos.end_).evalAt (fun i => if i = 0 then 2 else 5)
        = Outcome.fatal (BCError.reflectedOutOfRange
            (Function.update (fun i => if i = 0 then 2 else 5) 1 3)
            (commonRange planeField.accessibleRange planeField.localRange)) ∧
      (ASymmBC.construct planeField 1 DimPos.end_).evalAt (fun i => if i = 0 then 2 else 5)
        = Outcome.fatal (BCError.reflectedOutOfRange
            (Function.update (fun i => if i = 0 then 2 else 5) 1 3)
            (commonRange planeField.accessibleRange planeField.localRange)) ∧
      (∀ v, (SymmBC.construct planeField 1 DimPos.end_).evalAt
        (fun i => if i = 0 then 2 else 5) ≠ Outcome.value v) ∧
      (∀ v, (ASymmBC.construct planeField 1 DimPos.end_).evalAt
        (fun i => if i = 0 then 2 else 5) ≠ Outcome.value v) :=
  ⟨by decide,
    evalAt_reflected_out_of_range (SymmBC.construct planeField 1 DimPos.end_)
      (ASymmBC.construct planeField 1 DimPos.end_) planeField
      (fun i => if i = 0 then 2 else 5)
      (Function.update (fun i => if i = 0 then 2 else 5) 1 3)
      (Function.update (fun i => if i = 0 then 2 else 5) 1 3)
      rfl rfl rfl rfl (by decide) (by decide)⟩

/-- The node `4` of `cornerField` is its own reflection at the `end` side. -/
theorem cornerField_end_self :
    (ASymmBC.construct cornerField 0 DimPos.end_).reflectIndex (fun _ => 4)
      = Outcome.value (fun _ => 4) := by
  rw [asymm_reflectIndex_bound _ cornerField 0 (fun _ => 4) rfl rfl]
  congr 1
  funext i
  simp [Function.update, cornerField, ASymmBC.construct]

/-- The node `0` of `cornerField` is its own reflection at the `start` side. -/
theorem cornerField_start_self :
    (ASymmBC.construct cornerField 0 DimPos.start).reflectIndex (fun _ => 0)
      = Outcome.value (fun _ => 0) := by
  rw [asymm_reflectIndex_bound _ cornerField 0 (fun _ => 0) rfl rfl]
  congr 1
  funext i
  simp [Function.update, cornerField, ASymmBC.construct]

/-- Instance of C8: `cornerField` has the value `4` at its `end` boundary node `4`, and an
`end`-side `ASymmBC` evaluated there fails with the boundary-zero assertion. -/
theorem ASymmBC_evalAt_nonzero_on_boundary_witness :
    cornerField.evalAt (fun _ => 4) ≠ 0 ∧
      (ASymmBC.construct cornerField 0 DimPos.end_).evalAt (fun _ => 4)
        = Outcome.fatal
            (if inRange (commonRange cornerField.accessibleRange cornerField.localRange)
                (fun _ => 4) = true
             then BCError.nonZeroOnBoundary (cornerField.evalAt (fun _ => 4))
             else BCError.reflectedOutOfRange (fun _ => 4)
               (commonRange cornerField.accessibleRange cornerField.localRange)) :=
  ⟨by decide,
    ASymmBC_evalAt_nonzero_on_boundary (ASymmBC.construct cornerField 0 DimPos.end_)
      cornerField (fun _ => 4) rfl cornerField_end_self (by decide)⟩

/-- Instance of C9: `cornerField` vanishes at its `start` boundary node `0`, where a
`start`-side `ASymmBC` returns a value, and that value is zero. -/
theorem ASymmBC_evalAt_on_boundary_zero_witness :
    (ASymmBC.construct cornerField 0 DimPos.start).evalAt (fun _ => 0) = Outcome.value 0 ∧
      (0 : Int) = 0 :=
  ⟨rfl,
    ASymmBC_evalAt_on_boundary_zero (ASymmBC.construct cornerField 0 DimPos.start)
      (fun _ => 0) 0 cornerField_start_self rfl⟩

/-! ## Further properties of the reflection -/

theorem update_reflect_twice {d : Nat} (index : MDIndex d) (k : Fin d) (c : Int) :
    Function.update (Function.update index k (c - index k)) k
      (c - Function.update index k (c - index k) k) = index := by
  rw [Function.update_same, Function.update_idem, sub_sub_cancel, Function.update_eq_self]

theorem reflected_coordinate_eq {d : Nat} {E : Type} (f : Field d E) (k : Fin d)
    (pos : DimPos) (x : Int) :
    (if pos = DimPos.start then 2 * f.accessibleRange.start k - x
     else if f.loc k = LocOnMesh.Corner then 2 * (f.accessibleRange.end_ k - 1) - x
     else 2 * f.accessibleRange.end_ k - 1 - x)
      = (if pos = DimPos.start then 2 * f.accessibleRange.start k
         else if f.loc k = LocOnMesh.Corner then 2 * (f.accessibleRange.end_ k - 1)
         else 2 * f.accessibleRange.end_ k - 1) - x := by
  split_ifs <;> rfl

theorem outcome_value_eq_iff {ε α : Type} (a b : α) :
    (Outcome.value a : Outcome ε α) = Outcome.value b ↔ a = b :=
  ⟨fun h => Outcome.value.inj h, fun h => congrArg Outcome.value h⟩

/-- C11: for every location of the field at the boundary dimension `k` and every number
`n ≥ 1` of layers with `n < end[k] - start[k]` of the accessible range: an index with
`index[k] = start[k] - n` is reflected at the `start` side, and an index with
`index[k] = end[k] - 1 + n` is reflected at the `end` side, to a coordinate `r[k]` with
`start[k] ≤ r[k] < end[k]`, by `SymmBC` and `ASymmBC` alike. -/
theorem reflectIndex_into_range {d : Nat} {E : Type} (f : Field d E) (k : Fin d)
    (index : MDIndex d) (n : Int) (hn : 1 ≤ n)
    (hlt : n < f.accessibleRange.end_ k - f.accessibleRange.start k) :
    (index k = f.accessibleRange.start k - n →
      ∃ r : MDIndex d,
        (SymmBC.construct f ((k : Nat) : Int) DimPos.start).reflectIndex index
          = Outcome.value r ∧
        (ASymmBC.construct f ((k : Nat) : Int) DimPos.start).reflectIndex index
          = Outcome.value r ∧
        f.accessibleRange.start k ≤ r k ∧ r k < f.accessibleRange.end_ k) ∧
    (index k = f.accessibleRange.end_ k - 1 + n →
      ∃ r : MDIndex d,
        (SymmBC.construct f ((k : Nat) : Int) DimPos.end_).reflectIndex index
          = Outcome.value r ∧
        (ASymmBC.construct f ((k : Nat) : Int) DimPos.end_).reflectIndex index
          = Outcome.value r ∧
        f.accessibleRange.start k ≤ r k ∧ r k < f.accessibleRange.end_ k) := by
  constructor
  · intro hidx
    refine ⟨_, symm_reflectIndex_construct f k _ index,
      asymm_reflectIndex_construct f k _ index, ?_⟩
    simp only [Function.update_same, if_true, hidx]
    constructor <;> omega
  · intro hidx
    refine ⟨_, symm_reflectIndex_construct f k _ index,
      asymm_reflectIndex_construct f k _ index, ?_⟩
    have hpos : ¬ (DimPos.end_ = DimPos.start) := by decide
    simp only [Function.update_same, if_neg hpos, hidx]
    split_ifs <;> constructor <;> omega

/-- C18: reflection is an involution: for every bound field, boundary dimension, side,
location and index, reflecting the reflected index gives the index back, for `SymmBC` and for
`ASymmBC`. -/
theorem reflectIndex_involution {d : Nat} {E : Type} (f : Field d E) (k : Fin d)
    (pos : DimPos) (index : MDIndex d) :
    ∃ r : MDIndex d,
      (SymmBC.construct f ((k : Nat) : Int) pos).reflectIndex index = Outcome.value r ∧
      (SymmBC.construct f ((k : Nat) : Int) pos).reflectIndex r = Outcome.value index ∧
      (ASymmBC.construct f ((k : Nat) : Int) pos).reflectIndex index = Outcome.value r ∧
      (ASymmBC.construct f ((k : Nat) : Int) pos).reflectIndex r = Outcome.value index := by
  have hback : ∀ c : Int,
      Function.update (Function.update index k (c - index k)) k
        (c - Function.update index k (c - index k) k) = index :=
    update_reflect_twice index k
  refine ⟨_, symm_reflectIndex_construct f k pos index, ?_,
    asymm_reflectIndex_construct f k pos index, ?_⟩
  · rw [symm_reflectIndex_construct, reflected_coordinate_eq f k pos (index k),
      reflected_coordinate_eq, hback]
  · rw [asymm_reflectIndex_construct, reflected_coordinate_eq f k pos (index k),
      reflected_coordinate_eq, hback]

/-- C19: an index is its own reflection exactly when `index[k] = accessibleRange.start[k]` for
the `start` side, and exactly when `index[k] = accessibleRange.end[k] - 1` for the `end` side
of a field that is `Corner` at `k`; for the `end` side of a field that is `Center` at `k` no
index is its own reflection, and the boundary-zero assertion of `ASymmBC::evalAt` never
fails. -/
theorem reflectIndex_self_iff {d : Nat} {E : Type} [Neg E] [Zero E] [DecidableEq E]
    (f : Field d E) (k : Fin d) (index : MDIndex d) :
    (((SymmBC.construct f ((k : Nat) : Int) DimPos.start).reflectIndex index
          = Outcome.value index ↔ index k = f.accessibleRange.start k) ∧
      ((ASymmBC.construct f ((k : Nat) : Int) DimPos.start).reflectIndex index
          = Outcome.value index ↔ index k = f.accessibleRange.start k)) ∧
    (f.loc k = LocOnMesh.Corner →
      ((SymmBC.construct f ((k : Nat) : Int) DimPos.end_).reflectIndex index
          = Outcome.value index ↔ index k = f.accessibleRange.end_ k - 1) ∧
      ((ASymmBC.construct f ((k : Nat) : Int) DimPos.end_).reflectIndex index
          = Outcome.value index ↔ index k = f.accessibleRange.end_ k - 1)) ∧
    (f.loc k = LocOnMesh.Center →
      (SymmBC.construct f ((k : Nat) : Int) DimPos.end_).reflectIndex index
          ≠ Outcome.value index ∧
      (ASymmBC.construct f ((k : Nat) : Int) DimPos.end_).reflectIndex index
          ≠ Outcome.value index ∧
      ∀ v : E, (ASymmBC.construct f ((k : Nat) : Int) DimPos.end_).evalAt index
          ≠ Outcome.fatal (BCError.nonZeroOnBoundary v)) := by
  have hpos : ¬ (DimPos.end_ = DimPos.start) := by decide
  refine ⟨⟨?_, ?_⟩, ?_, ?_⟩
  · rw [symm_reflectIndex_construct, outcome_value_eq_iff, Function.update_eq_self_iff,
      if_pos rfl]
    constructor <;> intro h <;> omega
  · rw [asymm_reflectIndex_construct, outcome_value_eq_iff, Function.update_eq_self_iff,
      if_pos rfl]
    constructor <;> intro h <;> omega
  · intro hloc
    rw [symm_reflectIndex_construct, asymm_reflectIndex_construct, outcome_value_eq_iff,
      Function.update_eq_self_iff, if_neg hpos, if_pos hloc]
    constructor <;> constructor <;> intro h <;> omega
  · intro hloc
    have hcen : ¬ (f.loc k = LocOnMesh.Corner) := by rw [hloc]; decide
    have hne : Function.update index k (2 * f.accessibleRange.end_ k - 1 - index k)
        ≠ index := by
      rw [Ne, Function.update_eq_self_iff]
      omega
    have hr := asymm_reflectIndex_construct f k DimPos.end_ index
    rw [if_neg hpos, if_neg hcen] at hr
    refine ⟨?_, ?_, ?_⟩
    · rw [symm_reflectIndex_construct, if_neg hpos, if_neg hcen]
      exact fun h => hne (Outcome.value.inj h)
    · rw [hr]
      exact fun h => hne (Outcome.value.inj h)
    · intro v
      have hbeq : MDIndex.beq
          (Function.update index k (2 * f.accessibleRange.end_ k - 1 - index k)) index
            = false := by
        rw [Bool.eq_false_iff]
        intro h
        exact hne ((mdIndex_beq_eq_true _ _).1 h)
      rw [asymm_evalAt_bound _ f index _ rfl hr]
      simp only [OP_ASSERT_MSG, hbeq, Bool.not_false, Bool.true_or, if_true]
      split_ifs <;> intro h <;> cases h

/-! ## Kind-checked assignment and unbound BCs -/

/-- C12: `SymmBC::assignImpl` with an `other` that reports the kind `ASymm` (an `ASymmBC` in
particular) fails with the assertion naming the other's type, and likewise
`ASymmBC::assignImpl` with an `other` that reports `Symm`; either `assignImpl` returns only
when the kind the other BC reports is the target's own. -/
theorem assignImpl_kind_checked {d : Nat} {E : Type} (s srcS : SymmBC d E)
    (a srcA : ASymmBC d E) (other : BCBase d E) :
    (other.getBCType = BCType.ASymm →
      s.assignImpl other = Outcome.fatal (BCError.assignType other.getTypeName)) ∧
    (other.getBCType = BCType.Symm →
      a.assignImpl other = Outcome.fatal (BCError.assignType other.getTypeName)) ∧
    s.assignImpl (BCBase.asymm srcA) = Outcome.fatal (BCError.assignType "ASymmetricBC") ∧
    a.assignImpl (BCBase.symm srcS) = Outcome.fatal (BCError.assignType "SymmetricBC") ∧
    (∀ r, s.assignImpl other = Outcome.value r → other.getBCType = BCType.Symm) ∧
    (∀ r, a.assignImpl other = Outcome.value r → other.getBCType = BCType.ASymm) := by
  refine ⟨?_, ?_, rfl, rfl, ?_, ?_⟩
  · intro h
    simp [SymmBC.assignImpl, OP_ASSERT_MSG, h]
  · intro h
    simp [ASymmBC.assignImpl, OP_ASSERT_MSG, h]
  · intro r hr
    by_contra hne
    simp [SymmBC.assignImpl, OP_ASSERT_MSG, hne] at hr
  · intro r hr
    by_contra hne
    simp [ASymmBC.assignImpl, OP_ASSERT_MSG, hne] at hr

/-- C13 (as the code behaves): for a `SymmBC` and an `ASymmBC` without a bound field, `evalAt`
dereferences the null `_f` for every index: no value is returned and no assertion reports the
missing binding. -/
theorem evalAt_unbound_undefined {d : Nat} {E : Type} [Neg E] [Zero E] [DecidableEq E]
    (s : SymmBC d E) (a : ASymmBC d E) (index : MDIndex d)
    (hs : s._f = none) (ha : a._f = none) :
    s.evalAt index = Outcome.undefined ∧ a.evalAt index = Outcome.undefined ∧
      (∀ v, s.evalAt index ≠ Outcome.value v) ∧ (∀ v, a.evalAt index ≠ Outcome.value v) := by
  have h1 : s.evalAt index = Outcome.undefined := by
    simp [SymmBC.evalAt, SymmBC.reflectIndex, hs, deref, Outcome.bind]
  have h2 : a.evalAt index = Outcome.undefined := by
    simp [ASymmBC.evalAt, ASymmBC.reflectIndex, ha, deref, Outcome.bind]
  refine ⟨h1, h2, ?_, ?_⟩
  · intro v hv
    rw [h1] at hv
    cases hv
  · intro v hv
    rw [h2] at hv
    cases hv

/-- C13 (the claim at a concrete input): the default-constructed `SymmBC` and `ASymmBC`,
evaluated at the index `0` of a one-dimensional mesh, do not end in a reported failure. -/
theorem evalAt_unbound_not_reported :
    (¬ ∃ e, ({} : SymmBC 1 Int).evalAt (fun _ => 0) = Outcome.fatal e) ∧
      (¬ ∃ e, ({} : ASymmBC 1 Int).evalAt (fun _ => 0) = Outcome.fatal e) := by
  constructor
  · rintro ⟨e, he⟩
    have h : ({} : SymmBC 1 Int).evalAt (fun _ => 0) = Outcome.undefined := rfl
    rw [h] at he
    cases he
  · rintro ⟨e, he⟩
    have h : ({} : ASymmBC 1 Int).evalAt (fun _ => 0) = Outcome.undefined := rfl
    rw [h] at he
    cases he

/-- C16: a same-kind assignment (`SymmBC` from `SymmBC`, `ASymmBC` from `ASymmBC`) returns,
and the target then holds the source's field binding, `dim` and `pos`, so that `evalAt` has
the same outcome on target and source for every index. -/
theorem assignImpl_same_kind {d : Nat} {E : Type} [Neg E] [Zero E] [DecidableEq E]
    (s srcS : SymmBC d E) (a srcA : ASymmBC d E) :
    (∃ t, s.assignImpl (BCBase.symm srcS) = Outcome.value t ∧
      t._f = srcS._f ∧ t.dim = srcS.dim ∧ t.pos = srcS.pos ∧
      ∀ index, t.evalAt index = srcS.evalAt index) ∧
    (∃ t, a.assignImpl (BCBase.asymm srcA) = Outcome.value t ∧
      t._f = srcA._f ∧ t.dim = srcA.dim ∧ t.pos = srcA.pos ∧
      ∀ index, t.evalAt index = srcA.evalAt index) :=
  ⟨⟨_, rfl, rfl, rfl, rfl, fun _ => rfl⟩, ⟨_, rfl, rfl, rfl, rfl, fun _ => rfl⟩⟩

/-! ## The two variants compared, and what `evalAt` reads of the field -/

theorem subscript_cases (ε : Type) (d : Nat) (dim : Int) :
    (∃ k : Fin d, dim = ((k : Nat) : Int)) ∨ subscript ε d dim = Outcome.undefined := by
  by_cases h : 0 ≤ dim ∧ dim.toNat < d
  · left
    exact ⟨⟨dim.toNat, h.2⟩, (Int.toNat_of_nonneg h.1).symm⟩
  · right
    simp [subscript, h]

theorem symm_reflectIndex_bad_dim {d : Nat} {E : Type} (bc : SymmBC d E) (index : MDIndex d)
    (h : subscript (BCError d E) d bc.dim = Outcome.undefined) :
    bc.reflectIndex index = Outcome.undefined := by
  cases hf : bc._f <;> simp [SymmBC.reflectIndex, hf, deref, Outcome.bind, h]

theorem asymm_reflectIndex_bad_dim {d : Nat} {E : Type} (bc : ASymmBC d E)
    (index : MDIndex d) (h : subscript (BCError d E) d bc.dim = Outcome.undefined) :
    bc.reflectIndex index = Outcome.undefined := by
  cases hf : bc._f <;> simp [ASymmBC.reflectIndex, hf, deref, Outcome.bind, h]

theorem symm_evalAt_bad_dim {d : Nat} {E : Type} (bc : SymmBC d E) (index : MDIndex d)
    (h : subscript (BCError d E) d bc.dim = Outcome.undefined) :
    bc.evalAt index = Outcome.undefined := by
  simp [SymmBC.evalAt, symm_reflectIndex_bad_dim bc index h, Outcome.bind]

theorem asymm_evalAt_bad_dim {d : Nat} {E : Type} [Neg E] [Zero E] [DecidableEq E]
    (bc : ASymmBC d E) (index : MDIndex d)
    (h : subscript (BCError d E) d bc.dim = Outcome.undefined) :
    bc.evalAt index = Outcome.undefined := by
  simp [ASymmBC.evalAt, asymm_reflectIndex_bad_dim bc index h, Outcome.bind]

theorem mdIndex_beq_eq_decide {d : Nat} (a b : MDIndex d) [Decidable (a = b)] :
    MDIndex.beq a b = decide (a = b) := by
  by_cases h : a = b
  · rw [decide_eq_true h]
    exact (mdIndex_beq_eq_true a b).2 h
  · rw [decide_eq_false h, Bool.eq_false_iff]
    exact fun hb => h ((mdIndex_beq_eq_true a b).1 hb)

/-- C17: for every field, `dim`, side and index, with a `SymmBC` and an `ASymmBC` constructed
from the same `(field, dim, side)`: the two `reflectIndex` agree; `ASymmBC::evalAt` returns a
value if and only if `SymmBC::evalAt` does and the reflected index differs from the index or
the field's value at the index is zero; and a value returned by `ASymmBC::evalAt` is the
negation of the one returned by `SymmBC::evalAt`. -/
theorem asymm_evalAt_iff_symm_evalAt {d : Nat} {E : Type} [Neg E] [Zero E] [DecidableEq E]
    (f : Field d E) (dim : Int) (pos : DimPos) (index : MDIndex d) :
    (ASymmBC.construct f dim pos).reflectIndex index
        = (SymmBC.construct f dim pos).reflectIndex index ∧
    ((∃ v, (ASymmBC.construct f dim pos).evalAt index = Outcome.value v) ↔
      (∃ w, (SymmBC.construct f dim pos).evalAt index = Outcome.value w) ∧
        ∀ r, (SymmBC.construct f dim pos).reflectIndex index = Outcome.value r →
          r ≠ index ∨ f.evalAt index = 0) ∧
    (∀ v, (ASymmBC.construct f dim pos).evalAt index = Outcome.value v →
      ∃ w, (SymmBC.construct f dim pos).evalAt index = Outcome.value w ∧ v = -w) := by
  rcases subscript_cases (BCError d E) d dim with ⟨k, rfl⟩ | hbad
  · have hs := symm_reflectIndex_construct f k pos index
    have ha := asymm_reflectIndex_construct f k pos index
    have hse := symm_evalAt_bound _ f index _ rfl hs
    have hae := asymm_evalAt_bound _ f index _ rfl ha
    generalize Function.update index k _ = r at hs ha hse hae
    rw [mdIndex_beq_eq_decide] at hae
    refine ⟨ha.trans hs.symm, ?_, ?_⟩
    · rw [hae, hse, hs]
      by_cases hin : inRange (commonRange f.accessibleRange f.localRange) r = true
      · by_cases hri : r = index
        · subst hri
          by_cases hz : f.evalAt r = 0
          · simp [OP_ASSERT_MSG, hin, hz]
          · simp [OP_ASSERT_MSG, hin, hz]
        · simp [OP_ASSERT_MSG, hin, hri, outcome_value_eq_iff]
      · simp [OP_ASSERT_MSG, hin]
    · intro v hv
      rw [hae] at hv
      rw [hse]
      by_cases hin : inRange (commonRange f.accessibleRange f.localRange) r = true
      · simp only [OP_ASSERT_MSG, hin, if_true] at hv ⊢
        split_ifs at hv
        · exact ⟨_, rfl, (Outcome.value.inj hv).symm⟩
      · simp [OP_ASSERT_MSG, hin] at hv
  · have hs := symm_reflectIndex_bad_dim (SymmBC.construct f dim pos) index hbad
    have ha := asymm_reflectIndex_bad_dim (ASymmBC.construct f dim pos) index hbad
    have hse := symm_evalAt_bad_dim (SymmBC.construct f dim pos) index hbad
    have hae := asymm_evalAt_bad_dim (ASymmBC.construct f dim pos) index hbad
    refine ⟨ha.trans hs.symm, ?_, ?_⟩
    · rw [hae, hse]
      simp
    · intro v hv
      rw [hae] at hv
      cases hv

/-- C20: for two fields with the same `accessibleRange`, `localRange` and `loc` whose values
agree at every index inside `commonRange(accessibleRange, localRange)`, `SymmBC::evalAt` and
`ASymmBC::evalAt` (same `dim` and side) have the same outcome on both fields for every index:
the same value, or the same failure. -/
theorem evalAt_reads_valid_range_only {d : Nat} {E : Type} [Neg E] [Zero E] [DecidableEq E]
    (f g : Field d E) (dim : Int) (pos : DimPos) (index : MDIndex d)
    (hacc : f.accessibleRange = g.accessibleRange) (hlocal : f.localRange = g.localRange)
    (hloc : f.loc = g.loc)
    (hval : ∀ i, inRange (commonRange f.accessibleRange f.localRange) i = true →
      f.evalAt i = g.evalAt i) :
    (SymmBC.construct f dim pos).evalAt index = (SymmBC.construct g dim pos).evalAt index ∧
      (ASymmBC.construct f dim pos).evalAt index
        = (ASymmBC.construct g dim pos).evalAt index := by
  rcases subscript_cases (BCError d E) d dim with ⟨k, rfl⟩ | hbad
  · have hsf := symm_reflectIndex_construct f k pos index
    have haf := asymm_reflectIndex_construct f k pos index
    have hsg := symm_reflectIndex_construct g k pos index
    have hag := asymm_reflectIndex_construct g k pos index
    rw [← hacc, ← hloc] at hsg hag
    have e1 := symm_evalAt_bound _ f index _ rfl hsf
    have e2 := symm_evalAt_bound _ g index _ rfl hsg
    have e3 := asymm_evalAt_bound _ f index _ rfl haf
    have e4 := asymm_evalAt_bound _ g index _ rfl hag
    rw [← hacc, ← hlocal] at e2 e4
    generalize Function.update index k _ = r at e1 e2 e3 e4
    rw [e1, e2, e3, e4, mdIndex_beq_eq_decide]
    by_cases hin : inRange (commonRange f.accessibleRange f.localRange) r = true
    · have hr := hval r hin
      by_cases hri : r = index
      · have hi : f.evalAt index = g.evalAt index := by rw [← hri]; exact hr
        simp only [OP_ASSERT_MSG, hin, if_true, hr, hi]
        exact ⟨trivial, trivial⟩
      · simp [OP_ASSERT_MSG, hin, hri, hr]
    · simp [OP_ASSERT_MSG, hin]
  · exact ⟨(symm_evalAt_bad_dim (SymmBC.construct f dim pos) index hbad).trans
        (symm_evalAt_bad_dim (SymmBC.construct g dim pos) index hbad).symm,
      (asymm_evalAt_bad_dim (ASymmBC.construct f dim pos) index hbad).trans
        (asymm_evalAt_bad_dim (ASymmBC.construct g dim pos) index hbad).symm⟩

/-! ## Assembly and timing -/

/-- C14: calling `generateAb` twice on the same field with the static flag off gives the same
matrix and vector as calling it once; with the static flag on, the matrix after a second call
is the matrix after the first, also when the field changed from `u` to `v` in between, and
the vector is the one assembled from `v`. -/
theorem generateAb_twice {Fld Row Coef : Type} (h : EqnSolveHandler Fld Row Coef)
    (u v : Fld) :
    (h.staticMat = false →
      ((h.generateAb u).generateAb u).A = (h.generateAb u).A ∧
      ((h.generateAb u).generateAb u).b = (h.generateAb u).b) ∧
    (h.staticMat = true →
      ((h.generateAb u).generateAb v).A = (h.generateAb u).A ∧
      ((h.generateAb u).generateAb v).b
        = some (h.rows.map (fun r => (h.mapper r, h.rhs v r)))) := by
  constructor
  · intro hs
    simp [EqnSolveHandler.generateAb, hs]
  · intro hs
    cases hA : h.A <;> simp [EqnSolveHandler.generateAb, hs, hA]

theorem MPI_MAX_reduce_ge {T : Type} [LinearOrder T] :
    ∀ (n : Nat) (send : Fin (n + 1) → T) (v : Fin (n + 1)), send v ≤ MPI_MAX_reduce n send
  | 0, send, v => by
    have hv : v = 0 := Fin.ext (by omega)
    rw [hv]
    exact le_refl _
  | n + 1, send, v => by
    refine Fin.cases ?_ (fun i => ?_) v
    · exact le_max_left _ _
    · exact le_trans (MPI_MAX_reduce_ge n (fun i => send i.succ) i) (le_max_right _ _)

theorem MPI_MAX_reduce_attained {T : Type} [LinearOrder T] :
    ∀ (n : Nat) (send : Fin (n + 1) → T), ∃ v, MPI_MAX_reduce n send = send v
  | 0, send => ⟨0, rfl⟩
  | n + 1, send => by
    obtain ⟨i, hi⟩ := MPI_MAX_reduce_attained n (fun i => send i.succ)
    rcases max_choice (send 0) (MPI_MAX_reduce n (fun i => send i.succ)) with h | h
    · exact ⟨0, h⟩
    · exact ⟨i.succ, h.trans hi⟩

/-- C15: for every assignment of clock readings to the workers, `gatherTime` returns on every
worker `w` the maximum of all workers' elapsed times: it is at least each worker's elapsed
time, worker `w`'s own included, and it is the elapsed time of some worker. -/
theorem gatherTime_max {T : Type} [LinearOrder T] [Sub T] (n : Nat)
    (start end_ : Fin (n + 1) → T) (w : Fin (n + 1)) :
    (∀ v, end_ v - start v ≤ gatherTime n start end_ w) ∧
      (∃ v, gatherTime n start end_ w = end_ v - start v) ∧
      ∀ w2, gatherTime n start end_ w2 = gatherTime n start end_ w :=
  ⟨fun v => MPI_MAX_reduce_ge n (fun x => end_ x - start x) v,
    MPI_MAX_reduce_attained n (fun x => end_ x - start x), fun _ => rfl⟩

/-! ## Instances of the further theorems -/

/-- Instance of C11: on `centerField`, range `[0, 4)`, two layers out: the index `-2` is
reflected at the `start` side, and the index `5` at the `end` side, into `[0, 4)`. -/
theorem reflectIndex_into_range_witness :
    (∃ r : MDIndex 1,
      (SymmBC.construct centerField (((0 : Fin 1) : Nat) : Int) DimPos.start).reflectIndex
        (fun _ => -2) = Outcome.value r ∧
      (ASymmBC.construct centerField (((0 : Fin 1) : Nat) : Int) DimPos.start).reflectIndex
        (fun _ => -2) = Outcome.value r ∧
      centerField.accessibleRange.start 0 ≤ r 0 ∧ r 0 < centerField.accessibleRange.end_ 0) ∧
    (∃ r : MDIndex 1,
      (SymmBC.construct centerField (((0 : Fin 1) : Nat) : Int) DimPos.end_).reflectIndex
        (fun _ => 5) = Outcome.value r ∧
      (ASymmBC.construct centerField (((0 : Fin 1) : Nat) : Int) DimPos.end_).reflectIndex
        (fun _ => 5) = Outcome.value r ∧
      centerField.accessibleRange.start 0 ≤ r 0 ∧ r 0 < centerField.accessibleRange.end_ 0) :=
  ⟨(reflectIndex_into_range centerField 0 (fun _ => -2) 2 (by decide) (by decide)).1 rfl,
    (reflectIndex_into_range centerField 0 (fun _ => 5) 2 (by decide) (by decide)).2 rfl⟩

/-- Instance of C12: assigning an `ASymmBC` on `centerField` into a `SymmBC`, and a `SymmBC`
into an `ASymmBC`, fails; the assignments that return are those from the same kind. -/
theorem assignImpl_kind_checked_witness :
    ({} : SymmBC 1 Int).assignImpl
        (BCBase.asymm (ASymmBC.construct centerField 0 DimPos.end_))
      = Outcome.fatal (BCError.assignType "ASymmetricBC") ∧
    ({} : ASymmBC 1 Int).assignImpl
        (BCBase.symm (SymmBC.construct centerField 0 DimPos.end_))
      = Outcome.fatal (BCError.assignType "SymmetricBC") ∧
    (BCBase.symm (SymmBC.construct centerField 0 DimPos.end_)).getBCType = BCType.Symm ∧
    (BCBase.asymm (ASymmBC.construct centerField 0 DimPos.end_)).getBCType = BCType.ASymm :=
  ⟨(assignImpl_kind_checked {} (SymmBC.construct centerField 0 DimPos.end_) {}
      (ASymmBC.construct centerField 0 DimPos.end_)
      (BCBase.asymm (ASymmBC.construct centerField 0 DimPos.end_))).1 rfl,
    (assignImpl_kind_checked {} (SymmBC.construct centerField 0 DimPos.end_) {}
      (ASymmBC.construct centerField 0 DimPos.end_)
      (BCBase.symm (SymmBC.construct centerField 0 DimPos.end_))).2.1 rfl,
    (assignImpl_kind_checked {} (SymmBC.construct centerField 0 DimPos.end_) {}
      (ASymmBC.construct centerField 0 DimPos.end_)
      (BCBase.symm (SymmBC.construct centerField 0 DimPos.end_))).2.2.2.2.1 _ rfl,
    (assignImpl_kind_checked {} (SymmBC.construct centerField 0 DimPos.end_) {}
      (ASymmBC.construct centerField 0 DimPos.end_)
      (BCBase.asymm (ASymmBC.construct centerField 0 DimPos.end_))).2.2.2.2.2 _ rfl⟩

/-- Instance of C13: the default-constructed `SymmBC` and `ASymmBC` have no bound field, and
`evalAt` at the index `0` of a one-dimensional mesh is undefined for both. -/
theorem evalAt_unbound_undefined_witness :
    ({} : SymmBC 1 Int)._f = none ∧ ({} : ASymmBC 1 Int)._f = none ∧
      ({} : SymmBC 1 Int).evalAt (fun _ => 0) = Outcome.undefined ∧
      ({} : ASymmBC 1 Int).evalAt (fun _ => 0) = Outcome.undefined ∧
      (∀ v, ({} : SymmBC 1 Int).evalAt (fun _ => 0) ≠ Outcome.value v) ∧
      (∀ v, ({} : ASymmBC 1 Int).evalAt (fun _ => 0) ≠ Outcome.value v) :=
  ⟨rfl, rfl, evalAt_unbound_undefined {} {} (fun _ => 0) rfl rfl⟩

/-- Instance of C14: the two-row handler assembled on the field `3` and again on `3` (static
flag off), and assembled on `3` and then on `5` (static flag on). -/
theorem generateAb_twice_witness :
    ((((twoRowHandler false).generateAb 3).generateAb 3).A
        = ((twoRowHandler false).generateAb 3).A ∧
      (((twoRowHandler false).generateAb 3).generateAb 3).b
        = ((twoRowHandler false).generateAb 3).b) ∧
    ((((twoRowHandler true).generateAb 3).generateAb 5).A
        = ((twoRowHandler true).generateAb 3).A ∧
      (((twoRowHandler true).generateAb 3).generateAb 5).b
        = some ((twoRowHandler true).rows.map
            (fun r => ((twoRowHandler true).mapper r, (twoRowHandler true).rhs 5 r)))) :=
  ⟨(generateAb_twice (twoRowHandler false) 3 3).1 rfl,
    (generateAb_twice (twoRowHandler true) 3 5).2 rfl⟩

/-- Instance of C17: on `centerField` the `end`-side `ASymmBC` returns `-4` at the ghost index
`4`; hence the `SymmBC` returns a value there, of which `-4` is the negation, and the
reflected index differs from `4` or the field is zero at `4`. -/
theorem asymm_evalAt_iff_symm_evalAt_witness :
    ((∃ w, (SymmBC.construct centerField 0 DimPos.end_).evalAt (fun _ => 4)
        = Outcome.value w) ∧
      ∀ r, (SymmBC.construct centerField 0 DimPos.end_).reflectIndex (fun _ => 4)
        = Outcome.value r → r ≠ (fun _ => 4) ∨ centerField.evalAt (fun _ => 4) = 0) ∧
    (∃ w, (SymmBC.construct centerField 0 DimPos.end_).evalAt (fun _ => 4) = Outcome.value w ∧
      (-4 : Int) = -w) :=
  ⟨(asymm_evalAt_iff_symm_evalAt centerField 0 DimPos.end_ (fun _ => 4)).2.1.1 ⟨-4, rfl⟩,
    (asymm_evalAt_iff_symm_evalAt centerField 0 DimPos.end_ (fun _ => 4)).2.2 (-4) rfl⟩

/-- Instance of C19: `cornerField` is `Corner` and `centerField` is `Center`; the theorem at
the node `4` of the first and at the cell `3` of the second, both at the `end` side. -/
theorem reflectIndex_self_iff_witness :
    (((SymmBC.construct cornerField (((0 : Fin 1) : Nat) : Int) DimPos.end_).reflectIndex
          (fun _ => 4) = Outcome.value (fun _ => 4)
        ↔ (4 : Int) = cornerField.accessibleRange.end_ 0 - 1) ∧
      ((ASymmBC.construct cornerField (((0 : Fin 1) : Nat) : Int) DimPos.end_).reflectIndex
          (fun _ => 4) = Outcome.value (fun _ => 4)
        ↔ (4 : Int) = cornerField.accessibleRange.end_ 0 - 1)) ∧
    ((SymmBC.construct centerField (((0 : Fin 1) : Nat) : Int) DimPos.end_).reflectIndex
          (fun _ => 3) ≠ Outcome.value (fun _ => 3) ∧
      (ASymmBC.construct centerField (((0 : Fin 1) : Nat) : Int) DimPos.end_).reflectIndex
          (fun _ => 3) ≠ Outcome.value (fun _ => 3) ∧
      ∀ v : Int,
        (ASymmBC.construct centerField (((0 : Fin 1) : Nat) : Int) DimPos.end_).evalAt
          (fun _ => 3) ≠ Outcome.fatal (BCError.nonZeroOnBoundary v)) :=
  ⟨(reflectIndex_self_iff cornerField 0 (fun _ => 4)).2.1 rfl,
    (reflectIndex_self_iff centerField 0 (fun _ => 3)).2.2 rfl⟩

/-- The fields `centerField` and `centerFieldAlt` agree inside the valid range. -/
theorem centerField_agree (i : MDIndex 1)
    (h : inRange (commonRange centerField.accessibleRange centerField.localRange) i = true) :
    centerField.evalAt i = centerFieldAlt.evalAt i := by
  have h0 := (inRange_eq_true _ _).1 h 0
  simp only [commonRange, centerField, max_self, min_self] at h0
  simp [centerField, centerFieldAlt, h0]

/-- Instance of C20: `centerField` and `centerFieldAlt` differ at the index `7` outside the
valid range, and the `end`-side BCs evaluate alike on both at the ghost index `4`. -/
theorem evalAt_reads_valid_range_only_witness :
    centerField.evalAt (fun _ => 7) ≠ centerFieldAlt.evalAt (fun _ => 7) ∧
      (SymmBC.construct centerField 0 DimPos.end_).evalAt (fun _ => 4)
        = (SymmBC.construct centerFieldAlt 0 DimPos.end_).evalAt (fun _ => 4) ∧
      (ASymmBC.construct centerField 0 DimPos.end_).evalAt (fun _ => 4)
        = (ASymmBC.construct centerFieldAlt 0 DimPos.end_).evalAt (fun _ => 4) :=
  ⟨by decide,
    evalAt_reads_valid_range_only centerField centerFieldAlt 0 DimPos.end_ (fun _ => 4)
      rfl rfl rfl centerField_agree⟩

end OpFlow
